/-
Verification of the Tool-of-the-Tavern repository against its specification.

The JavaScript sources are shallowly embedded in Lean 4:
  * JS numbers are modelled as exact rationals (ℚ); `Math.round` is `jsRound`
    (round half towards +∞), `Math.ceil` is `Int.ceil`.
  * `Uint8ClampedArray` writes clamp to [0,255]; this is `clampByte`.
  * `ImageData.data` is a flat RGBA byte array traversed with stride 4; it is
    modelled as a `List Pixel` of RGBA quadruples.
  * Browser collaborators (text measurement, image-asset loading, the HTTP
    fetch) are oracles passed as function arguments.
  * JS strings are modelled as `String` / `List Char`; the fragments of
    `String.prototype.split` used by the code (`split(sep)[0]`,
    `split(sep)[1]`) are `beforeSub` and `beforeSub ∘ afterSub`.
-/
import Mathlib

namespace TavernTool

/-! ## Color Space Converter (hslFilter module)

Embeds `rgbToHsl`, `hslToRgb` and the `hue2rgb` helper from the HSL filter
module, mirroring the JS source expression by expression. -/

/-- JS `Math.round`: round half towards positive infinity. -/
def jsRound (x : ℚ) : ℤ := ⌊x + 1/2⌋

/-- The `hue2rgb` closure inside `hslToRgb`:
`if (t < 0) t += 1; if (t > 1) t -= 1;` then the four-way piecewise formula. -/
def hue2rgb (p q t : ℚ) : ℚ :=
  let ta := if t < 0 then t + 1 else t
  let tb := if ta > 1 then ta - 1 else ta
  if tb < 1/6 then p + (q - p) * 6 * tb
  else if tb < 1/2 then q
  else if tb < 2/3 then p + (q - p) * (2/3 - tb) * 6
  else p

/-- Source `rgbToHsl(r, g, b)` from the filter module.  Channels are divided by 255,
lightness is the mean of max and min, and when `max !== min` the saturation
and hue are computed by the standard branches; the `switch (max)` statement
(cases `r`, `g`, `b` in that order, `h` staying 0 if none matches, which
cannot happen) becomes the nested conditional.  Returns
`(h * 360, s * 100, l * 100)`. -/
def rgbToHsl (r g b : ℚ) : ℚ × ℚ × ℚ :=
  let r1 := r / 255
  let g1 := g / 255
  let b1 := b / 255
  let maxC := max r1 (max g1 b1)
  let minC := min r1 (min g1 b1)
  let l := (maxC + minC) / 2
  if maxC = minC then (0, 0, l * 100)
  else
    let d := maxC - minC
    let s := if l > 1/2 then d / (2 - maxC - minC) else d / (maxC + minC)
    let h :=
      if maxC = r1 then ((g1 - b1) / d + (if g1 < b1 then 6 else 0)) / 6
      else if maxC = g1 then ((b1 - r1) / d + 2) / 6
      else if maxC = b1 then ((r1 - g1) / d + 4) / 6
      else 0
    (h * 360, s * 100, l * 100)

/-- The three channel values computed by `hslToRgb(h, s, l)` before the final
`Math.round(_ * 255)` is applied to each. -/
def hslToRgbExact (h s l : ℚ) : ℚ × ℚ × ℚ :=
  let h1 := h / 360
  let s1 := s / 100
  let l1 := l / 100
  if s1 = 0 then (l1 * 255, l1 * 255, l1 * 255)
  else
    let q := if l1 < 1/2 then l1 * (1 + s1) else l1 + s1 - l1 * s1
    let p := 2 * l1 - q
    (hue2rgb p q (h1 + 1/3) * 255, hue2rgb p q h1 * 255, hue2rgb p q (h1 - 1/3) * 255)

/-- Source `hslToRgb(h, s, l)`: the exact channel values, each passed through
`Math.round`. -/
def hslToRgb (h s l : ℚ) : ℤ × ℤ × ℤ :=
  let e := hslToRgbExact h s l
  (jsRound e.1, jsRound e.2.1, jsRound e.2.2)

/-- Uncurried form of `hslToRgb`, for composing with `rgbToHsl`. -/
def hslToRgb3 (t : ℚ × ℚ × ℚ) : ℤ × ℤ × ℤ := hslToRgb t.1 t.2.1 t.2.2

/-- Uncurried form of `hslToRgbExact`. -/
def hslToRgbExact3 (t : ℚ × ℚ × ℚ) : ℚ × ℚ × ℚ := hslToRgbExact t.1 t.2.1 t.2.2

/-- Proof-side restatement of the non-trivial branch structure of
`hslToRgbExact` with the scaling already cancelled (`h*360/360 = h` etc.);
related to `hslToRgbExact` by `hslInner_scaled`. -/
def hslInner (h s l : ℚ) : ℚ × ℚ × ℚ :=
  if s = 0 then (l * 255, l * 255, l * 255)
  else
    let q := if l < 1/2 then l * (1 + s) else l + s - l * s
    let p := 2 * l - q
    (hue2rgb p q (h + 1/3) * 255, hue2rgb p q h * 255, hue2rgb p q (h - 1/3) * 255)

/-! ## Image Filter Engine (pixel pipeline of `applyHslFilter`) -/

/-- Writing a value into a `Uint8ClampedArray` slot clamps it to [0,255]
(the values written by the filter are already integers, so only the
clamping is modelled). -/
def clampByte (v : ℤ) : ℤ := max 0 (min 255 v)

/-- One RGBA quadruple of `ImageData.data` (`data[i] .. data[i+3]`). -/
structure Pixel where
  r : ℤ
  g : ℤ
  b : ℤ
  a : ℤ
deriving DecidableEq

/-- The body of the `applyColorize` loop for one pixel: luminosity-weighted
grayscale, lightness extracted via `rgbToHsl(gray, gray, gray)`, channels
replaced with `hslToRgb(hue, saturation, l)`, alpha written back. -/
def colorizePixel (hue saturation : ℚ) (px : Pixel) : Pixel :=
  let gray : ℚ := 0.299 * (px.r : ℚ) + 0.587 * (px.g : ℚ) + 0.114 * (px.b : ℚ)
  let l := (rgbToHsl gray gray gray).2.2
  let c := hslToRgb hue saturation l
  Pixel.mk (clampByte c.1) (clampByte c.2.1) (clampByte c.2.2) (clampByte px.a)

/-- Source `applyColorize(imageData, hue, saturation)`: the loop over all pixels. -/
def applyColorize (pixels : List Pixel) (hue saturation : ℚ) : List Pixel :=
  pixels.map (colorizePixel hue saturation)

/-- The body of the lightness-adjustment loop inside `applyHslFilter` for one
pixel: RGB→HSL, `l = Math.max(0, Math.min(100, l + lightnessAdjust))`,
HSL→RGB, alpha written back. -/
def lightnessPixel (lightnessAdjust : ℚ) (px : Pixel) : Pixel :=
  let t := rgbToHsl (px.r : ℚ) (px.g : ℚ) (px.b : ℚ)
  let l := max 0 (min 100 (t.2.2 + lightnessAdjust))
  let c := hslToRgb t.1 t.2.1 l
  Pixel.mk (clampByte c.1) (clampByte c.2.1) (clampByte c.2.2) (clampByte px.a)

/-- The pixel-level pipeline of `applyHslFilter`: `applyColorize` is invoked
unconditionally, then the lightness loop runs only `if (lightnessAdjust !== 0)`.
(The surrounding background-removal call, file decoding and blob encoding are
external I/O collaborators and are outside this pixel model.) -/
def applyHslFilterPixels (pixels : List Pixel)
    (hueShift saturationAdjust lightnessAdjust : ℚ) : List Pixel :=
  let colorized := applyColorize pixels hueShift saturationAdjust
  if lightnessAdjust ≠ 0 then colorized.map (lightnessPixel lightnessAdjust)
  else colorized

/-! ## Slug Extractor (`util.js`)

`extractSlug` uses `input.includes(sep)`, `input.split(sep)[1]` and
`.split(sep)[0]`.  JS `split` scans for non-overlapping occurrences of the
separator left to right, so `split(sep)[0]` is the prefix before the first
occurrence (the whole string when there is none) and, when an occurrence
exists, `split(sep)[1]` is the segment between the end of the first
occurrence and the next occurrence (or the end of the string).  These
fragments are modelled on `List Char` by `beforeSub` and
`beforeSub sep ∘ afterSub sep`. -/

/-- Source `s.split(sep)[0]`: the prefix of `s` before the first occurrence of
`sep` (all of `s` if `sep` does not occur). -/
def beforeSub (sep : List Char) : List Char → List Char
  | [] => []
  | c :: rest =>
    if sep.isPrefixOf (c :: rest) then [] else c :: beforeSub sep rest

/-- Everything after the first occurrence of `sep` (the empty list if `sep`
does not occur). -/
def afterSub (sep : List Char) : List Char → List Char
  | [] => []
  | c :: rest =>
    if sep.isPrefixOf (c :: rest) then (c :: rest).drop sep.length
    else afterSub sep rest

/-- Source `s.includes(sep)`. -/
def containsSub (sep : List Char) : List Char → Bool
  | [] => sep.isEmpty
  | c :: rest => sep.isPrefixOf (c :: rest) || containsSub sep rest

/-- The hosting-domain marker string `"start.gg/"`. -/
def chMarker : List Char := "start.gg/".data

/-- The `"/overview"` separator string. -/
def chOverview : List Char := "/overview".data

/-- Source `extractSlug(input)` from `util.js`:
`if (input.includes("start.gg/")) return input.split("start.gg/")[1].split("/overview")[0];`
otherwise the input unchanged. -/
def extractSlug (input : List Char) : List Char :=
  if containsSub chMarker input then
    beforeSub chOverview (beforeSub chMarker (afterSub chMarker input))
  else input

/-- Source `extractSlug` on `String`. -/
def extractSlugStr (s : String) : String := String.mk (extractSlug s.data)

/-- Modelled from the spec's words, for the refinement comparison in C8 (the
source of truth is `extractSlug` above): "if the input contains the hosting
domain marker, take the substring after it and before an `/overview` suffix
if present; otherwise return the input unchanged". "After it" is read as
everything after the first occurrence of the marker, and "an `/overview`
suffix" as a literal suffix that is removed when present. -/
def specExtractSlug (input : List Char) : List Char :=
  if containsSub chMarker input then
    let tail := afterSub chMarker input
    if chOverview.isSuffixOf tail then tail.take (tail.length - chOverview.length)
    else tail
  else input

/-! ## Standings Client (`api.js`)

`getTop8` extracts the slug, fails when the API key environment value is
absent, issues exactly one POST to the GraphQL endpoint and returns
`json.data?.event?.standings?.nodes ?? []`.  The HTTP call (including JSON
parsing of the response) is an oracle `GqlRequest → Except String GqlResponse`;
the requests issued are returned alongside the result so that theorems can
speak about how many calls were made and with which query. -/

/-- One standings node: `{ placement, entrant { name } }`. -/
structure StandingNode where
  placement : Option ℤ
  entrantName : Option String
deriving DecidableEq

/-- Source `standings` object of the response. -/
structure StandingsObj where
  nodes : Option (List StandingNode)
deriving DecidableEq

/-- Source `event` object of the response. -/
structure EventObj where
  standings : Option StandingsObj
deriving DecidableEq

/-- Source `data` object of the response. -/
structure GqlData where
  event : Option EventObj
deriving DecidableEq

/-- A parsed GraphQL response body. -/
structure GqlResponse where
  data : Option GqlData
deriving DecidableEq

/-- A POST request to the GraphQL endpoint: URL, bearer key, query text and
the `slug` variable. -/
structure GqlRequest where
  url : String
  apiKey : String
  query : String
  slug : String
deriving DecidableEq

/-- The GraphQL query template literal from `api.js`, character for
character (braces written as escapes). -/
def top8Query : String :=
  "query EventStandings($slug: String) \x7b\n        event(slug: $slug) \x7b\n            standings(query: \x7b perPage: 8, page: 1 \x7d) \x7b\n                nodes \x7b\n                    placement\n                    entrant \x7b name \x7d\n                \x7d\n            \x7d\n        \x7d\n    \x7d"

/-- The single request `getTop8` issues for a given key and slug. -/
def mkTop8Request (key slug : String) : GqlRequest :=
  GqlRequest.mk "https://api.start.gg/gql/alpha" key top8Query slug

/-- Source `json.data?.event?.standings?.nodes ?? []`. -/
def nodesOf (j : GqlResponse) : List StandingNode :=
  (((j.data.bind GqlData.event).bind EventObj.standings).bind StandingsObj.nodes).getD []

/-- Source `getTop8(eventUrl)` from `api.js`.  Returns the list of requests issued
together with the outcome. -/
def getTop8 (apiKey : Option String) (http : GqlRequest → Except String GqlResponse)
    (eventUrl : String) : List GqlRequest × Except String (List StandingNode) :=
  let eventSlug := extractSlugStr eventUrl
  match apiKey with
  | none => ([], Except.error "API key not set (VITE_STARTGG_KEY)")
  | some key =>
    let req := mkTop8Request key eventSlug
    match http req with
    | Except.error e => ([req], Except.error e)
    | Except.ok j => ([req], Except.ok (nodesOf j))

/-! ## Graphic Renderer (`renderer.js`, `generateGraphic`)

The renderer's layout arithmetic is embedded exactly; the 2D canvas text
measurement is an oracle `measure : font → text → ℚ` (the `measureCtx.font`
assignment selects the font used for each measurement), and icon-asset
loading is an oracle `assets : filename → Option Img` (`Image.onerror`
resolves to null, i.e. `none`).  `Img` is the type of loaded image elements,
kept abstract. -/

/-- Row/name font constant (`textFont`). -/
def textFont : String := "700 44px Roboto, serif"

/-- Header font constant (`headerFont`). -/
def headerFont : String := "700 72px Roboto, serif"

/-- Source `leftPadding` layout constant. -/
def leftPadding : ℚ := 4

/-- Source `rightPadding` layout constant. -/
def rightPadding : ℚ := 4

/-- Source `iconLeftPadding` layout constant. -/
def iconLeftPadding : ℚ := 24

/-- Source `iconSize` layout constant. -/
def iconSize : ℚ := 60

/-- Source `rowH` layout constant. -/
def rowH : ℚ := 70

/-- Source `headerBottomPadding` layout constant. -/
def headerBottomPadding : ℚ := 24

/-- Source `headerHeight` layout constant. -/
def headerHeight : ℚ := 72

/-- The fixed header text. -/
def headerText : String := "Top 8"

/-- One editable row handed to the renderer: `{ place, name, character, icon }`. -/
structure RenderEntry (Img : Type) where
  place : String
  name : String
  character : String
  icon : Option Img
deriving DecidableEq

/-- The label drawn and measured for a row: `` `${e.place}. ${e.name}` ``. -/
def rowLabel {Img : Type} (e : RenderEntry Img) : String :=
  e.place ++ ". " ++ e.name

/-- The `maxRowTextWidth` accumulation loop (`measureCtx.font = textFont`
before the loop; `if (w > maxRowTextWidth) maxRowTextWidth = w` is `max`). -/
def maxRowTextWidth {Img : Type} (measure : String → String → ℚ)
    (entries : List (RenderEntry Img)) : ℚ :=
  entries.foldl (fun acc e => max acc (measure textFont (rowLabel e))) 0

/-- The measured header width (`measureCtx.font = headerFont` first). -/
def headerWidthOf (measure : String → String → ℚ) : ℚ :=
  measure headerFont headerText

/-- Source `neededWidthForRows`. -/
def neededWidthForRows {Img : Type} (measure : String → String → ℚ)
    (entries : List (RenderEntry Img)) : ℚ :=
  leftPadding + maxRowTextWidth measure entries + iconLeftPadding + iconSize + rightPadding

/-- Source `innerWidth = Math.ceil(Math.max(neededWidthForRows, leftPadding + headerWidth + rightPadding, 200))`. -/
def innerWidthOf {Img : Type} (measure : String → String → ℚ)
    (entries : List (RenderEntry Img)) : ℚ :=
  (⌈max (neededWidthForRows measure entries)
      (max (leftPadding + headerWidthOf measure + rightPadding) 200)⌉ : ℚ)

/-- Source `borderSize = addBorder ? 1 : 0`. -/
def borderSizeOf (addBorder : Bool) : ℚ := if addBorder then 1 else 0

/-- Source `neededWidth = innerWidth + borderSize * 2` (the logical/CSS width). -/
def logicalWidthOf {Img : Type} (measure : String → String → ℚ)
    (entries : List (RenderEntry Img)) (addBorder : Bool) : ℚ :=
  innerWidthOf measure entries + borderSizeOf addBorder * 2

/-- Source `innerHeight = headerHeight + headerBottomPadding + entries.length * rowH`. -/
def innerHeightOf {Img : Type} (entries : List (RenderEntry Img)) : ℚ :=
  headerHeight + headerBottomPadding + (entries.length : ℚ) * rowH

/-- Source `height = innerHeight + borderSize * 2` (the logical/CSS height). -/
def logicalHeightOf {Img : Type} (entries : List (RenderEntry Img))
    (addBorder : Bool) : ℚ :=
  innerHeightOf entries + borderSizeOf addBorder * 2

/-- The canvas created by `generateGraphic`: physical buffer scaled by the
device pixel ratio, CSS size unscaled. -/
structure CanvasSpec where
  width : ℚ
  height : ℚ
  cssWidth : ℚ
  cssHeight : ℚ
deriving DecidableEq

/-- The canvas dimensions set by `generateGraphic`:
`canvas.width = neededWidth * dpr`, `canvas.height = height * dpr`,
`canvas.style.width/height = neededWidth/height + "px"`. -/
def canvasSpecOf {Img : Type} (measure : String → String → ℚ) (dpr : ℚ)
    (addBorder : Bool) (entries : List (RenderEntry Img)) : CanvasSpec :=
  CanvasSpec.mk (logicalWidthOf measure entries addBorder * dpr)
    (logicalHeightOf entries addBorder * dpr)
    (logicalWidthOf measure entries addBorder)
    (logicalHeightOf entries addBorder)

/-- Source `cleanedIconBase(name)`: null for a falsy name, else periods removed and
whitespace removed (`replace(/\s+/g, "")` deletes every whitespace
character). -/
def cleanedIconBase (name : String) : Option String :=
  if name = "" then none
  else some (String.mk ((name.data.filter (fun c => !(c == '.'))).filter
    (fun c => !(c == ' ' || c == '\t' || c == '\n' || c == '\r'))))

/-- The asset filename `loadCharacterIcon` requests, or `none` when it
resolves null without issuing a request (falsy character or falsy base). -/
def iconFilename (character : String) : Option String :=
  if character = "" then none
  else
    match cleanedIconBase character with
    | none => none
    | some base => if base = "" then none else some (base ++ "HeadSSBM.png")

/-- Source `loadCharacterIcon(character)`: resolves the loaded image, or `none` on a
falsy character/base or a load error. -/
def loadCharacterIcon {Img : Type} (assets : String → Option Img)
    (character : String) : Option Img :=
  match iconFilename character with
  | none => none
  | some fn => assets fn

/-- The icon-preload step of `generateGraphic`:
`await Promise.all(entries.map(async e => { e.icon = await loadCharacterIcon(e.character); }))`
sets the `icon` field of every entry in place. -/
def preloadIcons {Img : Type} (assets : String → Option Img)
    (entries : List (RenderEntry Img)) : List (RenderEntry Img) :=
  entries.map fun e =>
    RenderEntry.mk e.place e.name e.character (loadCharacterIcon assets e.character)

/-- The argument of `generateGraphic`: either not an array at all, or a list
of entries (`!Array.isArray(entries)` vs `entries`). -/
inductive EntriesArg (Img : Type) where
  | notArray
  | arr (entries : List (RenderEntry Img))
deriving DecidableEq

/-- The observable outcome of one `generateGraphic` call: either the visible
"no entries" message with nothing else done, or a render that issued the
given icon requests, left the caller's entries updated with the preloaded
icons, produced a canvas of the given dimensions and offered the PNG
download. -/
inductive RenderResult (Img : Type) where
  | noEntries (message : String)
  | rendered (iconRequests : List (Option String))
      (entriesAfter : List (RenderEntry Img)) (canvas : CanvasSpec)
      (downloadName : String)
deriving DecidableEq

/-- Source `generateGraphic(entries)`: reject a non-array or empty argument with the
visible message and return; otherwise preload icons onto the entries
(mutating `e.icon`), lay out and draw, and offer `top8.png`. -/
def generateGraphic {Img : Type} (measure : String → String → ℚ)
    (assets : String → Option Img) (dpr : ℚ) (addBorder : Bool)
    (arg : EntriesArg Img) : RenderResult Img :=
  match arg with
  | EntriesArg.notArray => RenderResult.noEntries "No entries to generate from."
  | EntriesArg.arr entries =>
    if entries.isEmpty then RenderResult.noEntries "No entries to generate from."
    else
      let entries2 := preloadIcons assets entries
      RenderResult.rendered (entries.map (fun e => iconFilename e.character))
        entries2 (canvasSpecOf measure dpr addBorder entries2) "top8.png"

/-- The canvas of a render outcome, if one was produced. -/
def RenderResult.canvasOf {Img : Type} : RenderResult Img → Option CanvasSpec
  | RenderResult.noEntries _ => none
  | RenderResult.rendered _ _ c _ => some c

/-- The caller's entry list after the call, if a render happened. -/
def RenderResult.entriesAfterOf {Img : Type} :
    RenderResult Img → Option (List (RenderEntry Img))
  | RenderResult.noEntries _ => none
  | RenderResult.rendered _ es _ _ => some es

/-- The icon-asset requests issued during the call. -/
def RenderResult.iconRequestsOf {Img : Type} : RenderResult Img → List (Option String)
  | RenderResult.noEntries _ => []
  | RenderResult.rendered reqs _ _ _ => reqs

/-- The visible message, when the render was rejected. -/
def RenderResult.messageOf {Img : Type} : RenderResult Img → Option String
  | RenderResult.noEntries m => some m
  | RenderResult.rendered _ _ _ _ => none

/-! ## Concrete instances used in counterexamples and witnesses -/

/-- A measurement oracle returning a fractional width for the row font. -/
def cexMeasure : String → String → ℚ :=
  fun font _ => if font = textFont then 405/2 else 10

/-- A one-row entry list (no icons involved). -/
def cexEntries : List (RenderEntry Unit) := [RenderEntry.mk "1" "A" "" none]

/-- An asset oracle on which every icon request succeeds. -/
def cexAssets : String → Option ℕ := fun _ => some 7

/-- A one-row entry list with a character whose icon will load. -/
def cexEntryList : List (RenderEntry ℕ) := [RenderEntry.mk "1" "Lucky" "Fox" none]

/-! ## Theorems

First, evaluation lemmas for `hue2rgb`: on each of the four final segments,
and the two wrap-around normalisations. -/

theorem hue2rgb_seg1 {p q t : ℚ} (h0 : 0 ≤ t) (h1 : t < 1/6) :
    hue2rgb p q t = p + (q - p) * 6 * t := by
  simp only [hue2rgb]
  rw [if_neg (by linarith : ¬ t < 0), if_neg (by linarith : ¬ t > 1), if_pos h1]

theorem hue2rgb_seg2 {p q t : ℚ} (h0 : 1/6 ≤ t) (h1 : t < 1/2) :
    hue2rgb p q t = q := by
  simp only [hue2rgb]
  rw [if_neg (by linarith : ¬ t < 0), if_neg (by linarith : ¬ t > 1),
    if_neg (by linarith : ¬ t < 1/6), if_pos h1]

theorem hue2rgb_seg3 {p q t : ℚ} (h0 : 1/2 ≤ t) (h1 : t < 2/3) :
    hue2rgb p q t = p + (q - p) * (2/3 - t) * 6 := by
  simp only [hue2rgb]
  rw [if_neg (by linarith : ¬ t < 0), if_neg (by linarith : ¬ t > 1),
    if_neg (by linarith : ¬ t < 1/6), if_neg (by linarith : ¬ t < 1/2), if_pos h1]

theorem hue2rgb_seg4 {p q t : ℚ} (h0 : 2/3 ≤ t) (h1 : t ≤ 1) :
    hue2rgb p q t = p := by
  simp only [hue2rgb]
  rw [if_neg (by linarith : ¬ t < 0), if_neg (by linarith : ¬ t > 1),
    if_neg (by linarith : ¬ t < 1/6), if_neg (by linarith : ¬ t < 1/2),
    if_neg (by linarith : ¬ t < 2/3)]

theorem hue2rgb_neg {p q t : ℚ} (h0 : -1 ≤ t) (h1 : t < 0) :
    hue2rgb p q t = hue2rgb p q (t + 1) := by
  simp only [hue2rgb]
  rw [if_pos h1, if_neg (by linarith : ¬ t + 1 < 0)]

theorem hue2rgb_gt1 {p q t : ℚ} (h0 : 1 < t) (h1 : t ≤ 2) :
    hue2rgb p q t = hue2rgb p q (t - 1) := by
  simp only [hue2rgb]
  rw [if_neg (by linarith : ¬ t < 0), if_pos (by linarith : t > 1),
    if_neg (by linarith : ¬ t - 1 < 0), if_neg (by linarith : ¬ t - 1 > 1)]

/-- Rounding is the identity on integers. -/
theorem jsRound_intCast (n : ℤ) : jsRound (n : ℚ) = n := by
  rw [jsRound, Int.floor_eq_iff]
  constructor
  · linarith
  · linarith

/-- The scaling by 360/100 performed by `rgbToHsl` cancels against the
normalisation of `hslToRgb`. -/
theorem hslInner_scaled (h s l : ℚ) :
    hslToRgbExact3 (h * 360, s * 100, l * 100) = hslInner h s l := by
  have h360 : h * 360 / 360 = h := mul_div_cancel_right₀ h (by norm_num)
  have h100 : s * 100 / 100 = s := mul_div_cancel_right₀ s (by norm_num)
  have l100 : l * 100 / 100 = l := mul_div_cancel_right₀ l (by norm_num)
  simp only [hslToRgbExact3, hslToRgbExact, hslInner, h360, h100, l100]

/-- Evaluation of `hslInner` in the chromatic case once the value of `q` is
known. -/
theorem hslInner_eval {s l : ℚ} (h q : ℚ) (hs : ¬ s = 0)
    (hq : (if l < 1/2 then l * (1 + s) else l + s - l * s) = q) :
    hslInner h s l =
      (hue2rgb (2 * l - q) q (h + 1/3) * 255,
       hue2rgb (2 * l - q) q h * 255,
       hue2rgb (2 * l - q) q (h - 1/3) * 255) := by
  simp only [hslInner]
  rw [if_neg hs, hq]

set_option maxHeartbeats 1000000 in
/-- With exact rational arithmetic the RGB→HSL→RGB round trip is the
identity before the final rounding, for every triple of channel values in
[0, 255]. -/
theorem roundTripExact (r g b : ℚ) (hr0 : 0 ≤ r) (hr1 : r ≤ 255)
    (hg0 : 0 ≤ g) (hg1 : g ≤ 255) (hb0 : 0 ≤ b) (hb1 : b ≤ 255) :
    hslToRgbExact3 (rgbToHsl r g b) = (r, g, b) := by
  simp only [rgbToHsl]
  set x := r / 255 with hxd
  set y := g / 255 with hyd
  set z := b / 255 with hzd
  have hx0 : 0 ≤ x := by rw [hxd]; positivity
  have hx1 : x ≤ 1 := by rw [hxd, div_le_one (by norm_num : (0:ℚ) < 255)]; exact hr1
  have hy0 : 0 ≤ y := by rw [hyd]; positivity
  have hy1 : y ≤ 1 := by rw [hyd, div_le_one (by norm_num : (0:ℚ) < 255)]; exact hg1
  have hz0 : 0 ≤ z := by rw [hzd]; positivity
  have hz1 : z ≤ 1 := by rw [hzd, div_le_one (by norm_num : (0:ℚ) < 255)]; exact hb1
  set M := max x (max y z) with hMd
  set m := min x (min y z) with hmd
  have hxM : x ≤ M := le_max_left _ _
  have hyM : y ≤ M := le_trans (le_max_left y z) (le_max_right x _)
  have hzM : z ≤ M := le_trans (le_max_right y z) (le_max_right x _)
  have hmx : m ≤ x := min_le_left _ _
  have hmy : m ≤ y := le_trans (min_le_right x _) (min_le_left y z)
  have hmz : m ≤ z := le_trans (min_le_right x _) (min_le_right y z)
  have hM1 : M ≤ 1 := max_le hx1 (max_le hy1 hz1)
  have hm0 : 0 ≤ m := le_min hx0 (le_min hy0 hz0)
  have hch : ∀ u v : ℚ, u = v / 255 → u * 255 = v := by
    intro u v huv; rw [huv]; exact div_mul_cancel₀ v (by norm_num)
  by_cases hMm : M = m
  · -- achromatic: all three channels coincide
    rw [if_pos hMm]
    have hxy : x = y := by linarith
    have hxz : x = z := by linarith
    have hMx : M = x := by rw [hMd, ← hxy, ← hxz, max_self, max_self]
    have hmxe : m = x := by rw [hmd, ← hxy, ← hxz, min_self, min_self]
    simp only [hslToRgbExact3, hslToRgbExact]
    rw [if_pos (show (0:ℚ)/100 = 0 by norm_num)]
    rw [hMx, hmxe]
    simp only [Prod.mk.injEq]
    refine ⟨?_, ?_, ?_⟩
    · rw [hxd]; ring
    · rw [hxy, hyd]; ring
    · rw [hxz, hzd]; ring
  · -- chromatic
    rw [if_neg hMm]
    have hlt : m < M := lt_of_le_of_ne (le_trans hmx hxM) fun h => hMm h.symm
    have hd0 : 0 < M - m := by linarith
    have hdne : M - m ≠ 0 := ne_of_gt hd0
    have hMm0 : M + m ≠ 0 := ne_of_gt (by linarith)
    have h2Mm : (2:ℚ) - M - m ≠ 0 := ne_of_gt (by linarith)
    rw [hslInner_scaled]
    rw [hslInner_eval _ M ?hs ?hq]
    case hs => split_ifs with hl <;> exact ne_of_gt (div_pos hd0 (by linarith))
    case hq =>
      split_ifs with h1 h2 h3
      · linarith
      · field_simp; ring
      · field_simp; ring
      · have h1' : M + m = 1 := by linarith
        rw [h1']
        have hm' : m = 1 - M := by linarith
        rw [hm']; ring
    rw [show 2 * ((M + m) / 2) - M = m by ring]
    by_cases hMx : M = x
    · -- the red channel is the maximum
      rw [if_pos hMx]
      have hzx : z ≤ x := by rw [← hMx]; exact hzM
      have hyx : y ≤ x := by rw [← hMx]; exact hyM
      by_cases hyz : y < z
      · -- g < b: hue lands in [5/6, 1)
        rw [if_pos hyz]
        have hmy_eq : m = y := by
          rw [hmd, min_eq_left (le_of_lt hyz)]
          exact min_eq_right (by linarith)
        have hflo : -1 ≤ (y - z) / (M - m) := by
          rw [le_div_iff₀ hd0]; linarith
        have hfhi : (y - z) / (M - m) < 0 := div_neg_of_neg_of_pos (by linarith) hd0
        simp only [Prod.mk.injEq]
        refine ⟨?_, ?_, ?_⟩
        · rw [hue2rgb_gt1 (by linarith) (by linarith),
            hue2rgb_seg2 (by linarith) (by linarith), hMx]
          exact hch x r hxd
        · rw [hue2rgb_seg4 (by linarith) (by linarith), hmy_eq]
          exact hch y g hyd
        · rw [hue2rgb_seg3 (by linarith) (by linarith), hmy_eq]
          have hdne2 : M - y ≠ 0 := by rw [← hmy_eq]; exact hdne
          rw [show b = z * 255 from by rw [hzd]; ring]
          (field_simp; ring)
      · -- b ≤ g: hue lands in [0, 1/6]
        rw [if_neg hyz]
        have hzy : z ≤ y := not_lt.mp hyz
        have hmz_eq : m = z := by
          rw [hmd, min_eq_right hzy]
          exact min_eq_right (by linarith)
        have hf0 : 0 ≤ (y - z) / (M - m) := div_nonneg (by linarith) (le_of_lt hd0)
        have hf1 : (y - z) / (M - m) ≤ 1 := by
          rw [div_le_one hd0]; linarith
        simp only [Prod.mk.injEq]
        refine ⟨?_, ?_, ?_⟩
        · by_cases hf : (y - z) / (M - m) < 1
          · rw [hue2rgb_seg2 (by linarith) (by linarith), hMx]
            exact hch x r hxd
          · have hf1' : (y - z) / (M - m) = 1 := le_antisymm hf1 (not_lt.mp hf)
            rw [hue2rgb_seg3 (by linarith) (by linarith), hf1', hmz_eq, hMx, hxd, hzd]
            ring
        · by_cases hf : (y - z) / (M - m) < 1
          · rw [hue2rgb_seg1 (by linarith) (by linarith), hmz_eq]
            have hdne2 : M - z ≠ 0 := by rw [← hmz_eq]; exact hdne
            rw [show g = y * 255 from by rw [hyd]; ring]
            field_simp
          · have h1 : 1 ≤ (y - z) / (M - m) := not_lt.mp hf
            rw [le_div_iff₀ hd0] at h1
            have hMy' : M = y := by linarith
            rw [hue2rgb_seg2 (by linarith) (by linarith), hMy']
            exact hch y g hyd
        · rw [hue2rgb_neg (by linarith) (by linarith),
            hue2rgb_seg4 (by linarith) (by linarith), hmz_eq]
          exact hch z b hzd
    · rw [if_neg hMx]
      have hxltM : x < M := lt_of_le_of_ne hxM fun h => hMx h.symm
      by_cases hMy : M = y
      · -- the green channel is the (strict over red) maximum
        rw [if_pos hMy]
        have hzy : z ≤ y := by rw [← hMy]; exact hzM
        have hm_eq : m = min x z := by rw [hmd, min_eq_right hzy]
        have hfgt : -1 < (z - x) / (M - m) := by
          rw [lt_div_iff₀ hd0]; linarith
        have hfle : (z - x) / (M - m) ≤ 1 := by
          rw [div_le_one hd0]; linarith
        simp only [Prod.mk.injEq]
        refine ⟨?_, ?_, ?_⟩
        · by_cases hzx : z < x
          · have hmz_eq : m = z := by rw [hm_eq]; exact min_eq_right (le_of_lt hzx)
            have hfneg : (z - x) / (M - m) < 0 := div_neg_of_neg_of_pos (by linarith) hd0
            rw [hue2rgb_seg3 (by linarith) (by linarith), hmz_eq]
            have hdne2 : M - z ≠ 0 := by rw [← hmz_eq]; exact hdne
            rw [show r = x * 255 from by rw [hxd]; ring]
            (field_simp; ring)
          · have hxz : x ≤ z := not_lt.mp hzx
            have hmx_eq : m = x := by rw [hm_eq]; exact min_eq_left hxz
            have hf0 : 0 ≤ (z - x) / (M - m) := div_nonneg (by linarith) (le_of_lt hd0)
            rw [hue2rgb_seg4 (by linarith) (by linarith), hmx_eq]
            exact hch x r hxd
        · by_cases hmid : ((z - x) / (M - m) + 2) / 6 < 1/2
          · rw [hue2rgb_seg2 (by linarith) (by linarith), hMy]
            exact hch y g hyd
          · have hf1 : (z - x) / (M - m) = 1 := le_antisymm hfle (by linarith [not_lt.mp hmid])
            rw [hue2rgb_seg3 (by linarith) (by linarith), hf1, hMy, hyd]
            ring
        · by_cases hzx : z < x
          · have hmz_eq : m = z := by rw [hm_eq]; exact min_eq_right (le_of_lt hzx)
            have hfneg : (z - x) / (M - m) < 0 := div_neg_of_neg_of_pos (by linarith) hd0
            rw [hue2rgb_neg (by linarith) (by linarith),
              hue2rgb_seg4 (by linarith) (by linarith), hmz_eq]
            exact hch z b hzd
          · have hxz : x ≤ z := not_lt.mp hzx
            have hmx_eq : m = x := by rw [hm_eq]; exact min_eq_left hxz
            have hf0 : 0 ≤ (z - x) / (M - m) := div_nonneg (by linarith) (le_of_lt hd0)
            by_cases hfl : (z - x) / (M - m) < 1
            · rw [hue2rgb_seg1 (by linarith) (by linarith), hmx_eq]
              have hdne2 : M - x ≠ 0 := by rw [← hmx_eq]; exact hdne
              rw [show b = z * 255 from by rw [hzd]; ring]
              (field_simp; ring)
            · have hf1 : (z - x) / (M - m) = 1 := le_antisymm hfle (not_lt.mp hfl)
              have hf1' := hf1
              rw [div_eq_iff hdne] at hf1'
              have hzM' : M = z := by linarith [hmx_eq]
              rw [hue2rgb_seg2 (by linarith) (by linarith), hzM']
              exact hch z b hzd
      · -- the blue channel is the (strict) maximum
        rw [if_neg hMy]
        have hMz : M = z := by
          rcases max_choice x (max y z) with h | h
          · exact absurd (hMd.trans h) hMx
          · rcases max_choice y z with h2 | h2
            · exact absurd (hMd.trans (h.trans h2)) hMy
            · exact hMd.trans (h.trans h2)
        rw [if_pos hMz]
        have hyltM : y < M := lt_of_le_of_ne hyM fun h => hMy h.symm
        have hyz' : y ≤ z := by linarith
        have hm_eq : m = min x y := by rw [hmd, min_eq_left hyz']
        have hfgt : -1 < (x - y) / (M - m) := by
          rw [lt_div_iff₀ hd0]; linarith
        have hflt : (x - y) / (M - m) < 1 := by
          rw [div_lt_one hd0]; linarith
        simp only [Prod.mk.injEq]
        refine ⟨?_, ?_, ?_⟩
        · by_cases hyx : y < x
          · have hmy_eq : m = y := by rw [hm_eq]; exact min_eq_right (le_of_lt hyx)
            have hfpos : 0 < (x - y) / (M - m) := div_pos (by linarith) hd0
            rw [hue2rgb_gt1 (by linarith) (by linarith),
              hue2rgb_seg1 (by linarith) (by linarith), hmy_eq]
            have hdne2 : M - y ≠ 0 := by rw [← hmy_eq]; exact hdne
            rw [show r = x * 255 from by rw [hxd]; ring]
            (field_simp; ring)
          · have hxy' : x ≤ y := not_lt.mp hyx
            have hmx_eq : m = x := by rw [hm_eq]; exact min_eq_left hxy'
            have hfle : (x - y) / (M - m) ≤ 0 :=
              div_nonpos_of_nonpos_of_nonneg (by linarith) (le_of_lt hd0)
            rw [hue2rgb_seg4 (by linarith) (by linarith), hmx_eq]
            exact hch x r hxd
        · by_cases hxy2 : x < y
          · have hmx_eq : m = x := by rw [hm_eq]; exact min_eq_left (le_of_lt hxy2)
            have hfneg : (x - y) / (M - m) < 0 := div_neg_of_neg_of_pos (by linarith) hd0
            rw [hue2rgb_seg3 (by linarith) (by linarith), hmx_eq]
            have hdne2 : M - x ≠ 0 := by rw [← hmx_eq]; exact hdne
            rw [show g = y * 255 from by rw [hyd]; ring]
            (field_simp; ring)
          · have hyx' : y ≤ x := not_lt.mp hxy2
            have hmy_eq : m = y := by rw [hm_eq]; exact min_eq_right hyx'
            have hf0 : 0 ≤ (x - y) / (M - m) := div_nonneg (by linarith) (le_of_lt hd0)
            rw [hue2rgb_seg4 (by linarith) (by linarith), hmy_eq]
            exact hch y g hyd
        · rw [hue2rgb_seg2 (by linarith) (by linarith), hMz]
          exact hch z b hzd

/-! Range lemmas: the filter's `hslToRgb` outputs stay inside [0, 255] for
the parameter ranges the module documents, so the `Uint8ClampedArray`
clamping on writes never alters a value. -/

theorem clampByte_mem (v : ℤ) : 0 ≤ clampByte v ∧ clampByte v ≤ 255 :=
  ⟨le_max_left 0 _, max_le (by norm_num) (min_le_left _ _)⟩

theorem clampByte_eq_self {v : ℤ} (h0 : 0 ≤ v) (h1 : v ≤ 255) : clampByte v = v := by
  rw [clampByte, min_eq_right h1, max_eq_right h0]

/-- A convex-style interpolation between two values of [0,1] stays in [0,1]. -/
theorem interp_mem (p q u : ℚ) (hp0 : 0 ≤ p) (hp1 : p ≤ 1) (hq0 : 0 ≤ q) (hq1 : q ≤ 1)
    (hu0 : 0 ≤ u) (hu1 : u ≤ 1) : 0 ≤ p + (q - p) * u ∧ p + (q - p) * u ≤ 1 := by
  constructor
  · nlinarith [mul_nonneg hp0 (by linarith : (0:ℚ) ≤ 1 - u), mul_nonneg hq0 hu0]
  · nlinarith [mul_nonneg (by linarith : (0:ℚ) ≤ 1 - p) (by linarith : (0:ℚ) ≤ 1 - u),
      mul_nonneg (by linarith : (0:ℚ) ≤ 1 - q) hu0]

theorem hue2rgb_mem01 {p q t : ℚ} (hp0 : 0 ≤ p) (hp1 : p ≤ 1) (hq0 : 0 ≤ q) (hq1 : q ≤ 1)
    (ht0 : 0 ≤ t) (ht1 : t ≤ 1) : 0 ≤ hue2rgb p q t ∧ hue2rgb p q t ≤ 1 := by
  by_cases h1 : t < 1/6
  · rw [hue2rgb_seg1 ht0 h1, show p + (q - p) * 6 * t = p + (q - p) * (6 * t) by ring]
    exact interp_mem p q (6 * t) hp0 hp1 hq0 hq1 (by linarith) (by linarith)
  · by_cases h2 : t < 1/2
    · rw [hue2rgb_seg2 (by linarith) h2]; exact ⟨hq0, hq1⟩
    · by_cases h3 : t < 2/3
      · rw [hue2rgb_seg3 (by linarith) h3,
          show p + (q - p) * (2/3 - t) * 6 = p + (q - p) * ((2/3 - t) * 6) by ring]
        exact interp_mem p q ((2/3 - t) * 6) hp0 hp1 hq0 hq1 (by linarith) (by linarith)
      · rw [hue2rgb_seg4 (by linarith) ht1]; exact ⟨hp0, hp1⟩

theorem hue2rgb_mem {p q t : ℚ} (hp0 : 0 ≤ p) (hp1 : p ≤ 1) (hq0 : 0 ≤ q) (hq1 : q ≤ 1)
    (ht0 : -5/6 ≤ t) (ht1 : t ≤ 4/3) : 0 ≤ hue2rgb p q t ∧ hue2rgb p q t ≤ 1 := by
  by_cases hneg : t < 0
  · rw [hue2rgb_neg (by linarith) hneg]
    exact hue2rgb_mem01 hp0 hp1 hq0 hq1 (by linarith) (by linarith)
  · by_cases hgt : 1 < t
    · rw [hue2rgb_gt1 hgt (by linarith)]
      exact hue2rgb_mem01 hp0 hp1 hq0 hq1 (by linarith) (by linarith)
    · exact hue2rgb_mem01 hp0 hp1 hq0 hq1 (by linarith) (by linarith)

theorem jsRound_byte {v : ℚ} (h0 : 0 ≤ v) (h1 : v ≤ 255) :
    0 ≤ jsRound v ∧ jsRound v ≤ 255 := by
  constructor
  · exact Int.le_floor.mpr (by push_cast; linarith)
  · have hlt : jsRound v < 256 := Int.floor_lt.mpr (by push_cast; linarith)
    omega

set_option maxHeartbeats 800000 in
/-- For a hue in [-180, 360], a saturation in [-100, 100] and a lightness in
[0, 100], every channel `hslToRgb` produces lies in [0, 255]. -/
theorem hslToRgb_byte (h s l : ℚ) (hh0 : -180 ≤ h) (hh1 : h ≤ 360)
    (hs0 : -100 ≤ s) (hs1 : s ≤ 100) (hl0 : 0 ≤ l) (hl1 : l ≤ 100) :
    (0 ≤ (hslToRgb h s l).1 ∧ (hslToRgb h s l).1 ≤ 255) ∧
    (0 ≤ (hslToRgb h s l).2.1 ∧ (hslToRgb h s l).2.1 ≤ 255) ∧
    (0 ≤ (hslToRgb h s l).2.2 ∧ (hslToRgb h s l).2.2 ≤ 255) := by
  simp only [hslToRgb, hslToRgbExact]
  set H := h / 360 with hHd
  set S := s / 100 with hSd
  set L := l / 100 with hLd
  have hH0 : -1/2 ≤ H := by rw [hHd, le_div_iff₀ (by norm_num : (0:ℚ) < 360)]; linarith
  have hH1 : H ≤ 1 := by rw [hHd, div_le_one (by norm_num : (0:ℚ) < 360)]; linarith
  have hS0 : -1 ≤ S := by rw [hSd, le_div_iff₀ (by norm_num : (0:ℚ) < 100)]; linarith
  have hS1 : S ≤ 1 := by rw [hSd, div_le_one (by norm_num : (0:ℚ) < 100)]; linarith
  have hL0 : 0 ≤ L := by rw [hLd]; positivity
  have hL1 : L ≤ 1 := by rw [hLd, div_le_one (by norm_num : (0:ℚ) < 100)]; linarith
  by_cases hS : S = 0
  · rw [if_pos hS]
    dsimp only
    have h1 : 0 ≤ L * 255 := by nlinarith
    have h2 : L * 255 ≤ 255 := by nlinarith
    exact ⟨jsRound_byte h1 h2, jsRound_byte h1 h2, jsRound_byte h1 h2⟩
  · rw [if_neg hS]
    dsimp only
    set Q := if L < 1/2 then L * (1 + S) else L + S - L * S with hQd
    have hQb : 0 ≤ Q ∧ Q ≤ 1 := by
      rw [hQd]; split_ifs with hc
      · constructor <;>
          nlinarith [mul_nonneg hL0 (by linarith : (0:ℚ) ≤ 1 + S),
            mul_nonneg hL0 (by linarith : (0:ℚ) ≤ 1 - S)]
      · constructor <;>
          nlinarith [mul_nonneg (by linarith : (0:ℚ) ≤ 1 + S) (by linarith : (0:ℚ) ≤ 1 - L),
            mul_nonneg (by linarith : (0:ℚ) ≤ 1 - S) (by linarith : (0:ℚ) ≤ 1 - L)]
    have hPb : 0 ≤ 2 * L - Q ∧ 2 * L - Q ≤ 1 := by
      rw [hQd]; split_ifs with hc
      · constructor <;>
          nlinarith [mul_nonneg hL0 (by linarith : (0:ℚ) ≤ 1 + S),
            mul_nonneg hL0 (by linarith : (0:ℚ) ≤ 1 - S)]
      · constructor <;>
          nlinarith [mul_nonneg (by linarith : (0:ℚ) ≤ 1 + S) (by linarith : (0:ℚ) ≤ 1 - L),
            mul_nonneg (by linarith : (0:ℚ) ≤ 1 - S) (by linarith : (0:ℚ) ≤ 1 - L)]
    have h1m : 0 ≤ hue2rgb (2 * L - Q) Q (H + 1/3) ∧ hue2rgb (2 * L - Q) Q (H + 1/3) ≤ 1 :=
      hue2rgb_mem hPb.1 hPb.2 hQb.1 hQb.2 (by linarith) (by linarith)
    have h2m : 0 ≤ hue2rgb (2 * L - Q) Q H ∧ hue2rgb (2 * L - Q) Q H ≤ 1 :=
      hue2rgb_mem hPb.1 hPb.2 hQb.1 hQb.2 (by linarith) (by linarith)
    have h3m : 0 ≤ hue2rgb (2 * L - Q) Q (H - 1/3) ∧ hue2rgb (2 * L - Q) Q (H - 1/3) ≤ 1 :=
      hue2rgb_mem hPb.1 hPb.2 hQb.1 hQb.2 (by linarith) (by linarith)
    exact ⟨jsRound_byte (by nlinarith [h1m.1]) (by nlinarith [h1m.2]),
      jsRound_byte (by nlinarith [h2m.1]) (by nlinarith [h2m.2]),
      jsRound_byte (by nlinarith [h3m.1]) (by nlinarith [h3m.2])⟩

set_option maxHeartbeats 800000 in
/-- For channel values in [0, 255], `rgbToHsl` returns a hue in [0, 360], a
saturation in [0, 100] and a lightness in [0, 100]. -/
theorem rgbToHsl_mem (r g b : ℚ) (hr0 : 0 ≤ r) (hr1 : r ≤ 255) (hg0 : 0 ≤ g)
    (hg1 : g ≤ 255) (hb0 : 0 ≤ b) (hb1 : b ≤ 255) :
    (0 ≤ (rgbToHsl r g b).1 ∧ (rgbToHsl r g b).1 ≤ 360) ∧
    (0 ≤ (rgbToHsl r g b).2.1 ∧ (rgbToHsl r g b).2.1 ≤ 100) ∧
    (0 ≤ (rgbToHsl r g b).2.2 ∧ (rgbToHsl r g b).2.2 ≤ 100) := by
  simp only [rgbToHsl]
  set x := r / 255 with hxd
  set y := g / 255 with hyd
  set z := b / 255 with hzd
  have hx0 : 0 ≤ x := by rw [hxd]; positivity
  have hx1 : x ≤ 1 := by rw [hxd, div_le_one (by norm_num : (0:ℚ) < 255)]; exact hr1
  have hy0 : 0 ≤ y := by rw [hyd]; positivity
  have hy1 : y ≤ 1 := by rw [hyd, div_le_one (by norm_num : (0:ℚ) < 255)]; exact hg1
  have hz0 : 0 ≤ z := by rw [hzd]; positivity
  have hz1 : z ≤ 1 := by rw [hzd, div_le_one (by norm_num : (0:ℚ) < 255)]; exact hb1
  set M := max x (max y z) with hMd
  set m := min x (min y z) with hmd
  have hxM : x ≤ M := le_max_left _ _
  have hyM : y ≤ M := le_trans (le_max_left y z) (le_max_right x _)
  have hzM : z ≤ M := le_trans (le_max_right y z) (le_max_right x _)
  have hmx : m ≤ x := min_le_left _ _
  have hmy : m ≤ y := le_trans (min_le_right x _) (min_le_left y z)
  have hmz : m ≤ z := le_trans (min_le_right x _) (min_le_right y z)
  have hM1 : M ≤ 1 := max_le hx1 (max_le hy1 hz1)
  have hm0 : 0 ≤ m := le_min hx0 (le_min hy0 hz0)
  by_cases hMm : M = m
  · rw [if_pos hMm]
    dsimp only
    refine ⟨⟨by norm_num, by norm_num⟩, ⟨by norm_num, by norm_num⟩, by linarith, by linarith⟩
  · rw [if_neg hMm]
    dsimp only
    have hlt : m < M := lt_of_le_of_ne (le_trans hmx hxM) fun h => hMm h.symm
    have hd0 : 0 < M - m := by linarith
    have hfb : ∀ u v : ℚ, m ≤ u → u ≤ M → m ≤ v → v ≤ M →
        -1 ≤ (u - v) / (M - m) ∧ (u - v) / (M - m) ≤ 1 := by
      intro u v hu1 hu2 hv1 hv2
      constructor
      · rw [le_div_iff₀ hd0]; linarith
      · rw [div_le_one hd0]; linarith
    refine ⟨⟨?_, ?_⟩, ⟨?_, ?_⟩, ?_, ?_⟩
    · split_ifs with hA hAv hB hC
      · obtain ⟨hf1, hf2⟩ := hfb y z hmy hyM hmz hzM
        linarith
      · have hf : 0 ≤ (y - z) / (M - m) :=
          div_nonneg (by linarith [not_lt.mp hAv]) (le_of_lt hd0)
        linarith
      · obtain ⟨hf1, hf2⟩ := hfb z x hmz hzM hmx hxM
        linarith
      · obtain ⟨hf1, hf2⟩ := hfb x y hmx hxM hmy hyM
        linarith
      · norm_num
    · split_ifs with hA hAv hB hC
      · have hf : (y - z) / (M - m) ≤ 0 :=
          div_nonpos_of_nonpos_of_nonneg (by linarith) (le_of_lt hd0)
        linarith
      · obtain ⟨hf1, hf2⟩ := hfb y z hmy hyM hmz hzM
        linarith
      · obtain ⟨hf1, hf2⟩ := hfb z x hmz hzM hmx hxM
        linarith
      · obtain ⟨hf1, hf2⟩ := hfb x y hmx hxM hmy hyM
        linarith
      · norm_num
    · split_ifs with hl
      · have hf : 0 ≤ (M - m) / (2 - M - m) := div_nonneg (le_of_lt hd0) (by linarith)
        linarith
      · have hf : 0 ≤ (M - m) / (M + m) := div_nonneg (le_of_lt hd0) (by linarith)
        linarith
    · split_ifs with hl
      · have hf : (M - m) / (2 - M - m) ≤ 1 := by
          rw [div_le_one (by linarith)]; linarith
        linarith
      · have hf : (M - m) / (M + m) ≤ 1 := by
          rw [div_le_one (by linarith)]; linarith
        linarith
    · linarith
    · linarith

/-- The lightness `rgbToHsl` assigns to a uniformly gray pixel. -/
theorem rgbToHsl_gray_l (v : ℚ) : (rgbToHsl v v v).2.2 = v / 255 * 100 := by
  simp only [rgbToHsl, max_self, min_self, if_true]
  ring

/-- Rounding is the identity on natural numbers. -/
theorem jsRound_natCast (n : ℕ) : jsRound (n : ℚ) = (n : ℤ) := by
  have h := jsRound_intCast (n : ℤ)
  rw [show (((n : ℤ) : ℚ)) = ((n : ℕ) : ℚ) from by push_cast; rfl] at h
  exact h

/-- C1: For every RGB triple (r,g,b) with each channel an integer in [0,255],
applying `rgbToHsl` and then `hslToRgb` reproduces the original triple within
±1 per channel.  (The proof goes through `roundTripExact`: with exact rational
arithmetic the round trip is in fact exact, and rounding is the identity on
the recovered integer channels.) -/
theorem C1_rgb_hsl_round_trip (r g b : ℕ) (hr : r ≤ 255) (hg : g ≤ 255) (hb : b ≤ 255) :
    ((hslToRgb3 (rgbToHsl (r : ℚ) (g : ℚ) (b : ℚ))).1 - (r : ℤ)).natAbs ≤ 1 ∧
    ((hslToRgb3 (rgbToHsl (r : ℚ) (g : ℚ) (b : ℚ))).2.1 - (g : ℤ)).natAbs ≤ 1 ∧
    ((hslToRgb3 (rgbToHsl (r : ℚ) (g : ℚ) (b : ℚ))).2.2 - (b : ℤ)).natAbs ≤ 1 := by
  have hex := roundTripExact (r : ℚ) (g : ℚ) (b : ℚ) (by positivity) (by exact_mod_cast hr)
    (by positivity) (by exact_mod_cast hg) (by positivity) (by exact_mod_cast hb)
  have h3 : hslToRgb3 (rgbToHsl (r : ℚ) (g : ℚ) (b : ℚ))
      = (jsRound (hslToRgbExact3 (rgbToHsl (r : ℚ) (g : ℚ) (b : ℚ))).1,
         jsRound (hslToRgbExact3 (rgbToHsl (r : ℚ) (g : ℚ) (b : ℚ))).2.1,
         jsRound (hslToRgbExact3 (rgbToHsl (r : ℚ) (g : ℚ) (b : ℚ))).2.2) := rfl
  rw [h3, hex]
  dsimp only
  rw [jsRound_natCast, jsRound_natCast, jsRound_natCast]
  simp

/-- Witness for C1 at the concrete triple (12, 200, 255). -/
theorem C1_rgb_hsl_round_trip_witness :
    ((hslToRgb3 (rgbToHsl ((12 : ℕ) : ℚ) ((200 : ℕ) : ℚ) ((255 : ℕ) : ℚ))).1 - ((12 : ℕ) : ℤ)).natAbs ≤ 1 ∧
    ((hslToRgb3 (rgbToHsl ((12 : ℕ) : ℚ) ((200 : ℕ) : ℚ) ((255 : ℕ) : ℚ))).2.1 - ((200 : ℕ) : ℤ)).natAbs ≤ 1 ∧
    ((hslToRgb3 (rgbToHsl ((12 : ℕ) : ℚ) ((200 : ℕ) : ℚ) ((255 : ℕ) : ℚ))).2.2 - ((255 : ℕ) : ℤ)).natAbs ≤ 1 :=
  C1_rgb_hsl_round_trip 12 200 255 (by norm_num) (by norm_num) (by norm_num)

theorem listMapCongr {α β : Type} {f g : α → β} (l : List α)
    (h : ∀ a ∈ l, f a = g a) : l.map f = l.map g := by
  induction l with
  | nil => rfl
  | cons a l ih =>
    simp only [List.map_cons]
    rw [h a (List.mem_cons_self a l), ih fun x hx => h x (List.mem_cons_of_mem a hx)]

/-- Every channel of a colorized pixel is a clamped byte. -/
theorem colorizePixel_bytes (hue saturation : ℚ) (px : Pixel) :
    (0 ≤ (colorizePixel hue saturation px).r ∧ (colorizePixel hue saturation px).r ≤ 255) ∧
    (0 ≤ (colorizePixel hue saturation px).g ∧ (colorizePixel hue saturation px).g ≤ 255) ∧
    (0 ≤ (colorizePixel hue saturation px).b ∧ (colorizePixel hue saturation px).b ≤ 255) ∧
    (0 ≤ (colorizePixel hue saturation px).a ∧ (colorizePixel hue saturation px).a ≤ 255) := by
  simp only [colorizePixel]
  exact ⟨clampByte_mem _, clampByte_mem _, clampByte_mem _, clampByte_mem _⟩

/-- On a byte-valued pixel and documented parameter ranges, the clamping in
`colorizePixel` is the identity and the pixel is replaced exactly as the spec
describes (alpha unchanged). -/
theorem colorizePixel_eq (hue saturation : ℚ) (px : Pixel)
    (hh0 : -180 ≤ hue) (hh1 : hue ≤ 180)
    (hs0 : -100 ≤ saturation) (hs1 : saturation ≤ 100)
    (hb : (0 ≤ px.r ∧ px.r ≤ 255) ∧ (0 ≤ px.g ∧ px.g ≤ 255) ∧
      (0 ≤ px.b ∧ px.b ≤ 255) ∧ (0 ≤ px.a ∧ px.a ≤ 255)) :
    colorizePixel hue saturation px =
      (let gray : ℚ := 0.299 * (px.r : ℚ) + 0.587 * (px.g : ℚ) + 0.114 * (px.b : ℚ)
       let c := hslToRgb hue saturation (rgbToHsl gray gray gray).2.2
       Pixel.mk c.1 c.2.1 c.2.2 px.a) := by
  obtain ⟨⟨h1, h2⟩, ⟨h3, h4⟩, ⟨h5, h6⟩, ⟨h7, h8⟩⟩ := hb
  have c1 : (0:ℚ) ≤ (px.r : ℚ) := by exact_mod_cast h1
  have c2 : (px.r : ℚ) ≤ 255 := by exact_mod_cast h2
  have c3 : (0:ℚ) ≤ (px.g : ℚ) := by exact_mod_cast h3
  have c4 : (px.g : ℚ) ≤ 255 := by exact_mod_cast h4
  have c5 : (0:ℚ) ≤ (px.b : ℚ) := by exact_mod_cast h5
  have c6 : (px.b : ℚ) ≤ 255 := by exact_mod_cast h6
  simp only [colorizePixel]
  set G := 0.299 * (px.r : ℚ) + 0.587 * (px.g : ℚ) + 0.114 * (px.b : ℚ) with hGd
  have hg0 : (0:ℚ) ≤ G := by rw [hGd]; linarith
  have hg1 : G ≤ 255 := by rw [hGd]; linarith
  have hlv := rgbToHsl_gray_l G
  have hfr : G / 255 ≤ 1 := by rw [div_le_one (by norm_num : (0:ℚ) < 255)]; exact hg1
  have hfr0 : 0 ≤ G / 255 := by positivity
  have hl0 : 0 ≤ (rgbToHsl G G G).2.2 := by rw [hlv]; linarith
  have hl1 : (rgbToHsl G G G).2.2 ≤ 100 := by rw [hlv]; linarith
  have hbyte := hslToRgb_byte hue saturation ((rgbToHsl G G G).2.2)
    hh0 (by linarith) hs0 hs1 hl0 hl1
  rw [clampByte_eq_self hbyte.1.1 hbyte.1.2, clampByte_eq_self hbyte.2.1.1 hbyte.2.1.2,
    clampByte_eq_self hbyte.2.2.1 hbyte.2.2.2, clampByte_eq_self h7 h8]

/-- On a byte-valued pixel the clamping in `lightnessPixel` is the identity
and the pixel is transformed exactly as the spec describes. -/
theorem lightnessPixel_eq (la : ℚ) (px : Pixel)
    (hb : (0 ≤ px.r ∧ px.r ≤ 255) ∧ (0 ≤ px.g ∧ px.g ≤ 255) ∧
      (0 ≤ px.b ∧ px.b ≤ 255) ∧ (0 ≤ px.a ∧ px.a ≤ 255)) :
    lightnessPixel la px =
      (let t := rgbToHsl (px.r : ℚ) (px.g : ℚ) (px.b : ℚ)
       let l := max 0 (min 100 (t.2.2 + la))
       let c := hslToRgb t.1 t.2.1 l
       Pixel.mk c.1 c.2.1 c.2.2 px.a) := by
  obtain ⟨⟨h1, h2⟩, ⟨h3, h4⟩, ⟨h5, h6⟩, ⟨h7, h8⟩⟩ := hb
  have hmem := rgbToHsl_mem (px.r : ℚ) (px.g : ℚ) (px.b : ℚ)
    (by exact_mod_cast h1) (by exact_mod_cast h2) (by exact_mod_cast h3)
    (by exact_mod_cast h4) (by exact_mod_cast h5) (by exact_mod_cast h6)
  simp only [lightnessPixel]
  have hl0 : (0:ℚ) ≤ max 0 (min 100 ((rgbToHsl (px.r : ℚ) (px.g : ℚ) (px.b : ℚ)).2.2 + la)) :=
    le_max_left 0 _
  have hl1 : max 0 (min 100 ((rgbToHsl (px.r : ℚ) (px.g : ℚ) (px.b : ℚ)).2.2 + la)) ≤ 100 :=
    max_le (by norm_num) (min_le_left _ _)
  have hbyte := hslToRgb_byte (rgbToHsl (px.r : ℚ) (px.g : ℚ) (px.b : ℚ)).1
    (rgbToHsl (px.r : ℚ) (px.g : ℚ) (px.b : ℚ)).2.1
    (max 0 (min 100 ((rgbToHsl (px.r : ℚ) (px.g : ℚ) (px.b : ℚ)).2.2 + la)))
    (by linarith [hmem.1.1]) (by linarith [hmem.1.2])
    (by linarith [hmem.2.1.1]) (by linarith [hmem.2.1.2]) hl0 hl1
  rw [clampByte_eq_self hbyte.1.1 hbyte.1.2, clampByte_eq_self hbyte.2.1.1 hbyte.2.1.2,
    clampByte_eq_self hbyte.2.2.1 hbyte.2.2.2, clampByte_eq_self h7 h8]

/-- C2: The colorize pass of `applyHslFilter` is applied unconditionally
(the equation below holds for every `lightnessAdjust`, including 0, and the
colorize stage is never skipped), and for every pixel it computes
`gray = 0.299r + 0.587g + 0.114b`, extracts the lightness of
`rgbToHsl(gray, gray, gray)`, replaces the pixel's RGB with
`hslToRgb(hueShift, saturationAdjust, thatLightness)`, and leaves the
pixel's alpha value unchanged. -/
theorem C2_colorize_unconditional (hueShift saturationAdjust lightnessAdjust : ℚ)
    (pixels : List Pixel)
    (hh0 : -180 ≤ hueShift) (hh1 : hueShift ≤ 180)
    (hs0 : -100 ≤ saturationAdjust) (hs1 : saturationAdjust ≤ 100)
    (hpx : ∀ p ∈ pixels, (0 ≤ p.r ∧ p.r ≤ 255) ∧ (0 ≤ p.g ∧ p.g ≤ 255) ∧
      (0 ≤ p.b ∧ p.b ≤ 255) ∧ (0 ≤ p.a ∧ p.a ≤ 255)) :
    applyHslFilterPixels pixels hueShift saturationAdjust lightnessAdjust =
      (let colorized := pixels.map (fun px =>
        let gray : ℚ := 0.299 * (px.r : ℚ) + 0.587 * (px.g : ℚ) + 0.114 * (px.b : ℚ)
        let c := hslToRgb hueShift saturationAdjust (rgbToHsl gray gray gray).2.2
        Pixel.mk c.1 c.2.1 c.2.2 px.a)
      if lightnessAdjust ≠ 0 then colorized.map (lightnessPixel lightnessAdjust)
      else colorized) := by
  have hcol : applyColorize pixels hueShift saturationAdjust
      = pixels.map (fun px =>
        let gray : ℚ := 0.299 * (px.r : ℚ) + 0.587 * (px.g : ℚ) + 0.114 * (px.b : ℚ)
        let c := hslToRgb hueShift saturationAdjust (rgbToHsl gray gray gray).2.2
        Pixel.mk c.1 c.2.1 c.2.2 px.a) := by
    simp only [applyColorize]
    exact listMapCongr pixels fun p hp =>
      colorizePixel_eq hueShift saturationAdjust p hh0 hh1 hs0 hs1 (hpx p hp)
  simp only [applyHslFilterPixels, hcol]

/-- Witness for C2 at concrete parameters (120, 50, 0) and a one-pixel image. -/
theorem C2_colorize_unconditional_witness :
    applyHslFilterPixels [Pixel.mk 10 20 30 40] 120 50 0 =
      (let colorized := [Pixel.mk 10 20 30 40].map (fun px =>
        let gray : ℚ := 0.299 * (px.r : ℚ) + 0.587 * (px.g : ℚ) + 0.114 * (px.b : ℚ)
        let c := hslToRgb 120 50 (rgbToHsl gray gray gray).2.2
        Pixel.mk c.1 c.2.1 c.2.2 px.a)
      if (0:ℚ) ≠ 0 then colorized.map (lightnessPixel 0) else colorized) :=
  C2_colorize_unconditional 120 50 0 [Pixel.mk 10 20 30 40]
    (by norm_num) (by norm_num) (by norm_num) (by norm_num)
    (by
      intro p hp
      rw [List.mem_singleton] at hp
      subst hp
      norm_num)

/-- C3: The lightness pass of `applyHslFilter` runs if and only if
`lightnessAdjust ≠ 0`; when it is 0 the pipeline output is exactly the
colorize output, and when it runs it transforms every pixel by converting
RGB to HSL, adding `lightnessAdjust` to the lightness, clamping the result
to [0, 100], converting back to RGB, and preserving the pixel's alpha. -/
theorem C3_lightness_pass (hueShift saturationAdjust lightnessAdjust : ℚ)
    (pixels : List Pixel) :
    (lightnessAdjust = 0 →
      applyHslFilterPixels pixels hueShift saturationAdjust lightnessAdjust
        = applyColorize pixels hueShift saturationAdjust) ∧
    (lightnessAdjust ≠ 0 →
      applyHslFilterPixels pixels hueShift saturationAdjust lightnessAdjust
        = (applyColorize pixels hueShift saturationAdjust).map (fun px =>
            let t := rgbToHsl (px.r : ℚ) (px.g : ℚ) (px.b : ℚ)
            let l := max 0 (min 100 (t.2.2 + lightnessAdjust))
            let c := hslToRgb t.1 t.2.1 l
            Pixel.mk c.1 c.2.1 c.2.2 px.a)) := by
  constructor
  · intro h0
    subst h0
    simp [applyHslFilterPixels]
  · intro hne
    simp only [applyHslFilterPixels, if_pos hne]
    refine listMapCongr _ fun p hp => ?_
    obtain ⟨py, _, hpy⟩ := List.mem_map.mp hp
    exact hpy ▸ lightnessPixel_eq lightnessAdjust (colorizePixel hueShift saturationAdjust py)
      (colorizePixel_bytes hueShift saturationAdjust py)

/-- Witness for C3: with `lightnessAdjust = 5` the lightness loop runs (and
with 0 it would not), on a one-pixel image. -/
theorem C3_lightness_pass_witness :
    applyHslFilterPixels [Pixel.mk 1 2 3 4] 0 0 5
      = (applyColorize [Pixel.mk 1 2 3 4] 0 0).map (fun px =>
          let t := rgbToHsl (px.r : ℚ) (px.g : ℚ) (px.b : ℚ)
          let l := max 0 (min 100 (t.2.2 + 5))
          let c := hslToRgb t.1 t.2.1 l
          Pixel.mk c.1 c.2.1 c.2.2 px.a) :=
  (C3_lightness_pass 0 0 5 [Pixel.mk 1 2 3 4]).2 (by norm_num)

/-! Lemmas pinning down the semantics of `beforeSub` / `afterSub` /
`containsSub` (the embedded fragments of JS `split` and `includes`). -/

theorem beforeSub_pre (sep : List Char) : ∀ t : List Char, beforeSub sep t <+: t := by
  intro t
  induction t with
  | nil => exact List.nil_prefix
  | cons c rest ih =>
    simp only [beforeSub]
    split_ifs with h
    · exact List.nil_prefix
    · obtain ⟨u, hu⟩ := ih
      exact ⟨u, by rw [List.cons_append, hu]⟩

/-- Membership test `containsSub` decides exactly the infix relation (for a non-empty
separator). -/
theorem containsSub_iff (sep : List Char) :
    ∀ t : List Char, containsSub sep t = true ↔ sep <:+: t := by
  intro t
  induction t with
  | nil =>
    simp only [containsSub, List.isEmpty_iff, List.infix_nil]
  | cons c rest ih =>
    simp only [containsSub, Bool.or_eq_true, List.isPrefixOf_iff_prefix, ih,
      List.infix_cons_iff]

/-- The part of a string before the first occurrence of `sep` contains no
occurrence of `sep`. -/
theorem containsSub_beforeSub (sep : List Char) (hsep : sep ≠ []) :
    ∀ t : List Char, containsSub sep (beforeSub sep t) = false := by
  intro t
  induction t with
  | nil =>
    cases sep with
    | nil => exact absurd rfl hsep
    | cons a s => rfl
  | cons c rest ih =>
    simp only [beforeSub]
    split_ifs with h
    · cases sep with
      | nil => exact absurd rfl hsep
      | cons a s => rfl
    · simp only [containsSub, Bool.or_eq_false_iff]
      constructor
      · have hpre : c :: beforeSub sep rest <+: c :: rest := by
          obtain ⟨u, hu⟩ := beforeSub_pre sep rest
          exact ⟨u, by rw [List.cons_append, hu]⟩
        cases hcase : sep.isPrefixOf (c :: beforeSub sep rest) with
        | false => rfl
        | true =>
          have hc1 : sep <+: c :: beforeSub sep rest := List.isPrefixOf_iff_prefix.mp hcase
          have hc3 : sep.isPrefixOf (c :: rest) = true :=
            List.isPrefixOf_iff_prefix.mpr (hc1.trans hpre)
          exact absurd hc3 h
      · exact ih

/-- When `sep` does not occur, `beforeSub` is the identity. -/
theorem beforeSub_of_not_contains (sep t : List Char)
    (h : containsSub sep t = false) : beforeSub sep t = t := by
  induction t with
  | nil => rfl
  | cons c rest ih =>
    simp only [containsSub, Bool.or_eq_false_iff] at h
    simp only [beforeSub]
    rw [if_neg (by simp [h.1]), ih h.2]

/-- Decomposition of a string around the first occurrence of its separator:
`t = beforeSub sep t ++ sep ++ afterSub sep t` whenever `sep` occurs. -/
theorem beforeSub_afterSub_spec (sep : List Char) (hsep : sep ≠ []) :
    ∀ t : List Char, containsSub sep t = true →
      t = beforeSub sep t ++ sep ++ afterSub sep t := by
  intro t
  induction t with
  | nil =>
    intro h
    exact absurd (List.isEmpty_iff.mp h) hsep
  | cons c rest ih =>
    intro h
    simp only [beforeSub, afterSub]
    split_ifs with hp
    · obtain ⟨u, hu⟩ := List.isPrefixOf_iff_prefix.mp hp
      rw [List.nil_append, ← hu, List.drop_left]
    · have h' : containsSub sep rest = true := by
        simp only [containsSub, Bool.or_eq_true] at h
        rcases h with hh | hh
        · exact absurd hh hp
        · exact hh
      simp only [List.cons_append]
      exact congrArg (List.cons c) (ih h')

/-- The output of `extractSlug`'s marker branch never contains the marker, so
a second application changes nothing. -/
theorem extractSlug_idem (l : List Char) : extractSlug (extractSlug l) = extractSlug l := by
  by_cases hc : containsSub chMarker l = true
  · have heq : extractSlug l
        = beforeSub chOverview (beforeSub chMarker (afterSub chMarker l)) := by
      unfold extractSlug; rw [if_pos hc]
    have hnc : containsSub chMarker (extractSlug l) = false := by
      rw [heq]
      have h1 : containsSub chMarker (beforeSub chMarker (afterSub chMarker l)) = false :=
        containsSub_beforeSub chMarker (by decide) (afterSub chMarker l)
      have h2 : beforeSub chOverview (beforeSub chMarker (afterSub chMarker l)) <+:
          beforeSub chMarker (afterSub chMarker l) := beforeSub_pre _ _
      have hnotinf : ¬ chMarker <:+:
          beforeSub chOverview (beforeSub chMarker (afterSub chMarker l)) := by
        intro hinf
        have hup : chMarker <:+: beforeSub chMarker (afterSub chMarker l) :=
          hinf.trans h2.isInfix
        rw [← containsSub_iff chMarker] at hup
        rw [h1] at hup
        exact Bool.false_ne_true hup
      cases hres : containsSub chMarker
          (beforeSub chOverview (beforeSub chMarker (afterSub chMarker l))) with
      | false => rfl
      | true => exact absurd ((containsSub_iff chMarker _).mp hres) hnotinf
    have hstep : extractSlug (extractSlug l)
        = if containsSub chMarker (extractSlug l) = true
          then beforeSub chOverview (beforeSub chMarker (afterSub chMarker (extractSlug l)))
          else extractSlug l := rfl
    rw [hstep, hnc]
    simp
  · have heq : extractSlug l = l := by unfold extractSlug; rw [if_neg hc]
    rw [heq, heq]

/-- C10: `extractSlug` is idempotent: for every input string `s`,
`extractSlug (extractSlug s) = extractSlug s`, because the output of the
marker branch never contains the hosting-domain marker and the other branch
is the identity. -/
theorem C10_extractSlug_idempotent (s : String) :
    extractSlugStr (extractSlugStr s) = extractSlugStr s :=
  congrArg String.mk (extractSlug_idem s.data)

/-- C8 counterexample: on an input containing the marker twice, `extractSlug`
returns the segment between the first two marker occurrences (`"a/"`), not
"the substring after the marker" (`"a/start.gg/b"`) as the claim's reading
of the spec prescribes. -/
theorem C8_counterexample :
    extractSlug ("start.gg/a/start.gg/b".data) ≠ specExtractSlug ("start.gg/a/start.gg/b".data) ∧
    extractSlug ("start.gg/a/start.gg/b".data) = "a/".data ∧
    specExtractSlug ("start.gg/a/start.gg/b".data) = "a/start.gg/b".data := by
  refine ⟨by decide, by decide, by decide⟩

/-- C8 amended: for every input in which the marker occurs at most once
(i.e. not again after the first occurrence), `extractSlug` returns the
substring after the marker truncated before the first occurrence of
`"/overview"` when the marker is present — not only before a literal
`/overview` suffix — and the input unchanged otherwise; in particular the
two concrete examples of the spec hold. -/
theorem C8_extractSlug_amended (s : List Char)
    (honce : containsSub chMarker (afterSub chMarker s) = false) :
    extractSlug s = (if containsSub chMarker s
      then beforeSub chOverview (afterSub chMarker s) else s) ∧
    extractSlug ("https://start.gg/tournament/foo/event/bar/overview".data)
      = "tournament/foo/event/bar".data ∧
    extractSlug ("tournament/foo/event/bar".data) = "tournament/foo/event/bar".data := by
  refine ⟨?_, by decide, by decide⟩
  unfold extractSlug
  by_cases hc : containsSub chMarker s = true
  · rw [if_pos hc, if_pos hc, beforeSub_of_not_contains chMarker (afterSub chMarker s) honce]
  · rw [if_neg hc, if_neg hc]

/-- Witness for the amended C8 at the spec's own example URL. -/
theorem C8_extractSlug_amended_witness :
    extractSlug ("https://start.gg/tournament/foo/event/bar/overview".data)
      = (if containsSub chMarker ("https://start.gg/tournament/foo/event/bar/overview".data)
        then beforeSub chOverview (afterSub chMarker
          ("https://start.gg/tournament/foo/event/bar/overview".data))
        else ("https://start.gg/tournament/foo/event/bar/overview".data)) ∧
    extractSlug ("https://start.gg/tournament/foo/event/bar/overview".data)
      = "tournament/foo/event/bar".data ∧
    extractSlug ("tournament/foo/event/bar".data) = "tournament/foo/event/bar".data :=
  C8_extractSlug_amended ("https://start.gg/tournament/foo/event/bar/overview".data) (by decide)

/-- C7: `getTop8` returns the raw standings node list (possibly empty, as
`nodesOf` defaults missing levels to `[]`) on success, fails with an error
when the API key is unset (issuing no request at all) or when the HTTP
call/parsing fails; it performs no retry (at most one request is ever
issued), and the single request carries the fixed query, which asks for
`perPage: 8` on `page: 1`. -/
theorem C7_getTop8_spec (http : GqlRequest → Except String GqlResponse) (url : String) :
    getTop8 none http url = ([], Except.error "API key not set (VITE_STARTGG_KEY)") ∧
    (∀ key e, http (mkTop8Request key (extractSlugStr url)) = Except.error e →
      getTop8 (some key) http url
        = ([mkTop8Request key (extractSlugStr url)], Except.error e)) ∧
    (∀ key j, http (mkTop8Request key (extractSlugStr url)) = Except.ok j →
      getTop8 (some key) http url
        = ([mkTop8Request key (extractSlugStr url)], Except.ok (nodesOf j))) ∧
    (∀ k, (getTop8 k http url).1.length ≤ 1) ∧
    (∀ k req, req ∈ (getTop8 k http url).1 →
      req.query = top8Query ∧ req.slug = extractSlugStr url ∧
      req.url = "https://api.start.gg/gql/alpha") ∧
    containsSub ("perPage: 8".data) top8Query.data = true ∧
    containsSub ("page: 1".data) top8Query.data = true := by
  refine ⟨rfl, ?_, ?_, ?_, ?_, by decide, by decide⟩
  · intro key e he
    simp only [getTop8]
    rw [he]
  · intro key j hj
    simp only [getTop8]
    rw [hj]
  · intro k
    cases k with
    | none => simp [getTop8]
    | some key =>
      simp only [getTop8]
      cases hh : http (mkTop8Request key (extractSlugStr url)) <;> simp
  · intro k req hmem
    cases k with
    | none => simp [getTop8] at hmem
    | some key =>
      simp only [getTop8] at hmem
      cases hh : http (mkTop8Request key (extractSlugStr url)) <;>
        rw [hh] at hmem <;> simp only [List.mem_singleton] at hmem <;> subst hmem <;>
        exact ⟨rfl, rfl, rfl⟩

/-- Witness for C7: with a key present and an HTTP oracle returning a
response with no data, `getTop8` issues one request and returns the empty
node list. -/
theorem C7_getTop8_spec_witness :
    getTop8 (some "k") (fun _ => Except.ok (GqlResponse.mk none)) "x"
      = ([mkTop8Request "k" (extractSlugStr "x")], Except.ok (nodesOf (GqlResponse.mk none))) :=
  (C7_getTop8_spec (fun _ => Except.ok (GqlResponse.mk none)) "x").2.2.1 "k"
    (GqlResponse.mk none) rfl

/-! Layout lemmas: preloading icons changes neither the measured labels nor
the entry count, so the canvas dimensions are those of the caller's list. -/

theorem maxRowTextWidth_preload {Img : Type} (measure : String → String → ℚ)
    (assets : String → Option Img) (entries : List (RenderEntry Img)) :
    maxRowTextWidth measure (preloadIcons assets entries) = maxRowTextWidth measure entries := by
  simp only [preloadIcons, maxRowTextWidth, List.foldl_map]
  rfl

theorem logicalWidthOf_preload {Img : Type} (measure : String → String → ℚ)
    (assets : String → Option Img) (entries : List (RenderEntry Img)) (ab : Bool) :
    logicalWidthOf measure (preloadIcons assets entries) ab
      = logicalWidthOf measure entries ab := by
  simp only [logicalWidthOf, innerWidthOf, neededWidthForRows, maxRowTextWidth_preload]

theorem logicalHeightOf_preload {Img : Type} (assets : String → Option Img)
    (entries : List (RenderEntry Img)) (ab : Bool) :
    logicalHeightOf (preloadIcons assets entries) ab = logicalHeightOf entries ab := by
  simp only [logicalHeightOf, innerHeightOf, preloadIcons, List.length_map]

theorem canvasSpecOf_preload {Img : Type} (measure : String → String → ℚ)
    (assets : String → Option Img) (dpr : ℚ) (ab : Bool)
    (entries : List (RenderEntry Img)) :
    canvasSpecOf measure dpr ab (preloadIcons assets entries)
      = canvasSpecOf measure dpr ab entries := by
  simp only [canvasSpecOf, logicalWidthOf_preload, logicalHeightOf_preload]

/-- C6: Rendering an empty (or non-array) entries list produces no canvas:
the renderer returns immediately with the visible "no entries" message, and
no layout, icon loading or drawing takes place. -/
theorem C6_empty_entries {Img : Type} (measure : String → String → ℚ)
    (assets : String → Option Img) (dpr : ℚ) (addBorder : Bool) :
    generateGraphic measure assets dpr addBorder (EntriesArg.notArray : EntriesArg Img)
      = RenderResult.noEntries "No entries to generate from." ∧
    generateGraphic measure assets dpr addBorder (EntriesArg.arr ([] : List (RenderEntry Img)))
      = RenderResult.noEntries "No entries to generate from." ∧
    (generateGraphic measure assets dpr addBorder
      (EntriesArg.arr ([] : List (RenderEntry Img)))).canvasOf = none ∧
    (generateGraphic measure assets dpr addBorder
      (EntriesArg.arr ([] : List (RenderEntry Img)))).iconRequestsOf = [] ∧
    (generateGraphic measure assets dpr addBorder
      (EntriesArg.notArray : EntriesArg Img)).canvasOf = none :=
  ⟨rfl, rfl, rfl, rfl, rfl⟩

/-- C4 counterexample: with a measurement oracle returning the fractional
width 405/2 for the row font, the rendered logical width is 295 — the
ceiling of the maximum (589/2) — and not the maximum itself, so the claimed
width equality fails. -/
theorem C4_counterexample :
    logicalWidthOf cexMeasure cexEntries false
      ≠ max (leftPadding + maxRowTextWidth cexMeasure cexEntries + iconLeftPadding
          + iconSize + rightPadding)
        (max (leftPadding + headerWidthOf cexMeasure + rightPadding) 200) ∧
    logicalWidthOf cexMeasure cexEntries false = 295 ∧
    max (leftPadding + maxRowTextWidth cexMeasure cexEntries + iconLeftPadding
        + iconSize + rightPadding)
      (max (leftPadding + headerWidthOf cexMeasure + rightPadding) 200) = 589/2 := by
  have h1 : logicalWidthOf cexMeasure cexEntries false = 295 := by with_unfolding_all rfl
  have h2 : max (leftPadding + maxRowTextWidth cexMeasure cexEntries + iconLeftPadding
        + iconSize + rightPadding)
      (max (leftPadding + headerWidthOf cexMeasure + rightPadding) 200) = 589/2 := by
    with_unfolding_all rfl
  refine ⟨?_, h1, h2⟩
  rw [h1, h2]
  norm_num

/-- C4 amended: for every non-empty entries list rendered without a border,
the logical canvas height equals header height (72) + header gap (24) +
row height (70) × entry count, and the logical canvas width is the CEILING
of the maximum of (widest measured row text + icon column + paddings),
(header width + paddings) and the fixed minimum floor 200 — in particular
the width is at least the widest row text width plus icon column and
padding. -/
theorem C4_layout_amended {Img : Type} (measure : String → String → ℚ)
    (assets : String → Option Img) (dpr : ℚ) (entries : List (RenderEntry Img))
    (h : entries ≠ []) :
    (generateGraphic measure assets dpr false (EntriesArg.arr entries)).canvasOf
      = some (canvasSpecOf measure dpr false entries) ∧
    logicalHeightOf entries false = 72 + 24 + (entries.length : ℚ) * 70 ∧
    logicalWidthOf measure entries false
      = (⌈max (leftPadding + maxRowTextWidth measure entries + iconLeftPadding
            + iconSize + rightPadding)
          (max (leftPadding + headerWidthOf measure + rightPadding) 200)⌉ : ℚ) ∧
    leftPadding + maxRowTextWidth measure entries + iconLeftPadding + iconSize + rightPadding
      ≤ logicalWidthOf measure entries false := by
  refine ⟨?_, ?_, ?_, ?_⟩
  · simp only [generateGraphic]
    rw [if_neg (by simpa [List.isEmpty_iff] using h)]
    simp only [RenderResult.canvasOf]
    rw [canvasSpecOf_preload]
  · simp only [logicalHeightOf, innerHeightOf, headerHeight, headerBottomPadding, rowH,
      borderSizeOf]
    norm_num
  · simp only [logicalWidthOf, innerWidthOf, neededWidthForRows, borderSizeOf]
    norm_num
  · have h1 : neededWidthForRows measure entries
        ≤ max (neededWidthForRows measure entries)
          (max (leftPadding + headerWidthOf measure + rightPadding) 200) := le_max_left _ _
    have h2 := Int.le_ceil (max (neededWidthForRows measure entries)
      (max (leftPadding + headerWidthOf measure + rightPadding) 200))
    simp only [neededWidthForRows] at h1 h2
    simp only [logicalWidthOf, innerWidthOf, neededWidthForRows, borderSizeOf]
    norm_num
    linarith

/-- Witness for the amended C4 at the concrete one-row instance. -/
theorem C4_layout_amended_witness :
    (generateGraphic cexMeasure (fun _ => (none : Option Unit)) 1 false
      (EntriesArg.arr cexEntries)).canvasOf
      = some (canvasSpecOf cexMeasure 1 false cexEntries) ∧
    logicalHeightOf cexEntries false = 72 + 24 + (cexEntries.length : ℚ) * 70 ∧
    logicalWidthOf cexMeasure cexEntries false
      = (⌈max (leftPadding + maxRowTextWidth cexMeasure cexEntries + iconLeftPadding
            + iconSize + rightPadding)
          (max (leftPadding + headerWidthOf cexMeasure + rightPadding) 200)⌉ : ℚ) ∧
    leftPadding + maxRowTextWidth cexMeasure cexEntries + iconLeftPadding + iconSize
        + rightPadding
      ≤ logicalWidthOf cexMeasure cexEntries false :=
  C4_layout_amended cexMeasure (fun _ => (none : Option Unit)) 1 cexEntries (by decide)

/-- C5: For every non-empty entries list, rendering with `addBorder = true`
produces a canvas whose logical width and height each exceed those of the
no-border render of the same entries by exactly twice the fixed border
thickness (1). -/
theorem C5_border_adds_twice {Img : Type} (measure : String → String → ℚ)
    (assets : String → Option Img) (dpr : ℚ) (entries : List (RenderEntry Img))
    (h : entries ≠ []) :
    logicalWidthOf measure entries true = logicalWidthOf measure entries false + 2 * 1 ∧
    logicalHeightOf entries true = logicalHeightOf entries false + 2 * 1 ∧
    (∃ cT cF,
      (generateGraphic measure assets dpr true (EntriesArg.arr entries)).canvasOf = some cT ∧
      (generateGraphic measure assets dpr false (EntriesArg.arr entries)).canvasOf = some cF ∧
      cT.cssWidth = cF.cssWidth + 2 * 1 ∧ cT.cssHeight = cF.cssHeight + 2 * 1) := by
  have hW : logicalWidthOf measure entries true = logicalWidthOf measure entries false + 2 * 1 := by
    simp only [logicalWidthOf, borderSizeOf]
    norm_num
  have hH : logicalHeightOf entries true = logicalHeightOf entries false + 2 * 1 := by
    simp only [logicalHeightOf, borderSizeOf]
    norm_num
  refine ⟨hW, hH, canvasSpecOf measure dpr true entries, canvasSpecOf measure dpr false entries,
    ?_, ?_, ?_, ?_⟩
  · simp only [generateGraphic]
    rw [if_neg (by simpa [List.isEmpty_iff] using h)]
    simp only [RenderResult.canvasOf]
    rw [canvasSpecOf_preload]
  · simp only [generateGraphic]
    rw [if_neg (by simpa [List.isEmpty_iff] using h)]
    simp only [RenderResult.canvasOf]
    rw [canvasSpecOf_preload]
  · simpa only [canvasSpecOf] using hW
  · simpa only [canvasSpecOf] using hH

/-- Witness for C5 at the concrete one-row instance. -/
theorem C5_border_adds_twice_witness :
    logicalWidthOf cexMeasure cexEntries true = logicalWidthOf cexMeasure cexEntries false + 2 * 1 ∧
    logicalHeightOf cexEntries true = logicalHeightOf cexEntries false + 2 * 1 ∧
    (∃ cT cF,
      (generateGraphic cexMeasure (fun _ => (none : Option Unit)) 1 true
        (EntriesArg.arr cexEntries)).canvasOf = some cT ∧
      (generateGraphic cexMeasure (fun _ => (none : Option Unit)) 1 false
        (EntriesArg.arr cexEntries)).canvasOf = some cF ∧
      cT.cssWidth = cF.cssWidth + 2 * 1 ∧ cT.cssHeight = cF.cssHeight + 2 * 1) :=
  C5_border_adds_twice cexMeasure (fun _ => (none : Option Unit)) 1 cexEntries (by decide)

/-- C9 counterexample: after a render call on a concrete one-row list whose
icon loads, the returned entries still carry the loaded icon (`some 7`), so
the icons ARE retained on the caller's RenderEntry objects after the call —
refuting "the icon field is populated only transiently". -/
theorem C9_counterexample :
    ¬ (∀ l, (generateGraphic (fun _ _ => (0:ℚ)) cexAssets 1 false
        (EntriesArg.arr cexEntryList)).entriesAfterOf = some l → ∀ e ∈ l, e.icon = none) := by
  intro hall
  have hres : (generateGraphic (fun _ _ => (0:ℚ)) cexAssets 1 false
      (EntriesArg.arr cexEntryList)).entriesAfterOf
      = some [RenderEntry.mk "1" "Lucky" "Fox" (some 7)] := by with_unfolding_all rfl
  have hnone := hall _ hres (RenderEntry.mk "1" "Lucky" "Fox" (some 7))
    (List.mem_singleton.mpr rfl)
  exact Option.noConfusion hnone

/-- C9 amended: the icon images loaded during the asynchronous preload step
REMAIN on the caller's RenderEntry objects when `generateGraphic` returns —
the `icon` field is overwritten with the preload result and never cleared
(each click handler builds fresh entry objects with `icon: null`, so stale
icons are not observed across calls). -/
theorem C9_icons_retained {Img : Type} (measure : String → String → ℚ)
    (assets : String → Option Img) (dpr : ℚ) (addBorder : Bool)
    (entries : List (RenderEntry Img)) (h : entries ≠ []) :
    (generateGraphic measure assets dpr addBorder (EntriesArg.arr entries)).entriesAfterOf
      = some (entries.map fun e =>
          RenderEntry.mk e.place e.name e.character (loadCharacterIcon assets e.character)) := by
  simp only [generateGraphic]
  rw [if_neg (by simpa [List.isEmpty_iff] using h)]
  rfl

/-- Witness for the amended C9 at the concrete one-row instance. -/
theorem C9_icons_retained_witness :
    (generateGraphic (fun _ _ => (0:ℚ)) cexAssets 1 false
      (EntriesArg.arr cexEntryList)).entriesAfterOf
      = some (cexEntryList.map fun e =>
          RenderEntry.mk e.place e.name e.character (loadCharacterIcon cexAssets e.character)) :=
  C9_icons_retained (fun _ _ => (0:ℚ)) cexAssets 1 false cexEntryList (by decide)

end TavernTool
